import Mathlib

/-!
Verification of the DOCX template parsing and schema synthesis engine:
`parseDocumenteroTemplate` / `inferFieldType`
(packages/builder/src/components/start/DocxTemplateUploadModal.svelte) and
`validateDocxFieldsForPhase1` / `createTableFromDocxFields`
(packages/builder/src/templates/docxTemplateUtils.js).

Texts are embedded as `List Char` (a `String`'s `data`).  The JavaScript
regular expressions used by the parser are deterministic on their inputs
(every adjacent pair of sub-patterns draws from disjoint character classes,
so the greedy/lazy quantifiers never need backtracking beyond what the
definitions below perform); each pattern is embedded as an anchored matcher
plus a scanner that reproduces `RegExp.exec` with the `g` flag: successive
leftmost matches, resuming after the end of the previous match.

Scanners and the recursive parser are defined with an explicit fuel argument
so that every definition is structurally recursive and kernel-computable;
the top-level entry points instantiate the fuel with the text length, which
is always sufficient (each scanning step consumes at least one character,
and every recursive sub-parse receives a strictly shorter block body --
proved as `parseAuxFuelIrrelevant` below).
-/

/-- Character class of the JavaScript regular-expression `\s` (also the set
trimmed by `String.prototype.trim`). -/
def isJsSpace (c : Char) : Bool :=
  c = ' ' || c = '\t' || c = '\n' || c = '\r' || c = '\x0b' || c = '\x0c' ||
  c = '\u00A0' || c = '\u1680' || c = '\u2000' || c = '\u2001' ||
  c = '\u2002' || c = '\u2003' || c = '\u2004' || c = '\u2005' ||
  c = '\u2006' || c = '\u2007' || c = '\u2008' || c = '\u2009' ||
  c = '\u200A' || c = '\u2028' || c = '\u2029' || c = '\u202F' ||
  c = '\u205F' || c = '\u3000' || c = '\uFEFF'

/-- Character class `[a-zA-Z_]` (start of an identifier). -/
def isIdentStart (c : Char) : Bool :=
  c.isAlpha || c = '_'

/-- Character class `[a-zA-Z0-9_]` (continuation of an identifier). -/
def isIdentChar (c : Char) : Bool :=
  c.isAlphanum || c = '_'

/-- Greedy `\s*`: drop the maximal run of JS whitespace. -/
def dropSpaces (s : List Char) : List Char :=
  s.dropWhile isJsSpace

/-- JavaScript `String.prototype.trim`: strip JS whitespace on both ends. -/
def trimChars (s : List Char) : List Char :=
  ((s.dropWhile isJsSpace).reverse.dropWhile isJsSpace).reverse

/-- Consume an exact literal prefix, returning the rest of the input. -/
def dropLit : List Char → List Char → Option (List Char)
  | [], s => some s
  | _ :: _, [] => none
  | p :: ps, c :: cs => if c = p then dropLit ps cs else none

/-- Greedy `[a-zA-Z_][a-zA-Z0-9_]*`: one identifier, maximal munch. -/
def matchIdent : List Char → Option (String × List Char)
  | [] => none
  | c :: cs =>
    if isIdentStart c then
      some (String.mk (c :: cs.takeWhile isIdentChar), cs.dropWhile isIdentChar)
    else none

/-- Greedy `(?:\.[a-zA-Z_][a-zA-Z0-9_]*)*`: maximal run of `.ident` groups
(fuelled; each group consumes at least two characters, so fuel = input
length always suffices). -/
def matchDotTailF : Nat → List Char → (List String × List Char)
  | 0, s => ([], s)
  | fuel + 1, s =>
    match s with
    | '.' :: rest =>
      match matchIdent rest with
      | some (name, r2) =>
        let (more, r3) := matchDotTailF fuel r2
        (name :: more, r3)
      | none => ([], s)
    | _ => ([], s)

/-- Maximal run of `.ident` groups after the first identifier of a dotted
path. -/
def matchDotTail (s : List Char) : List String × List Char :=
  matchDotTailF s.length s

/-- Anchored match for the `simpleField` pattern
`\{\{\s*([a-zA-Z_][a-zA-Z0-9_]*)\s*\}\}`; returns the captured name and the
input after the match. -/
def matchSimpleAt (s : List Char) : Option (String × List Char) :=
  (dropLit ['\x7b', '\x7b'] s).bind fun s1 =>
  (matchIdent (dropSpaces s1)).bind fun pr =>
  (dropLit ['\x7d', '\x7d'] (dropSpaces pr.2)).map fun s5 => (pr.1, s5)

/-- Anchored match for the `nestedField` pattern
`\{\{\s*([a-zA-Z_][a-zA-Z0-9_]*(?:\.[a-zA-Z_][a-zA-Z0-9_]*)+)\s*\}\}`;
returns the dot-separated components of the captured path (at least two)
and the input after the match. -/
def matchNestedAt (s : List Char) : Option (List String × List Char) :=
  (dropLit ['\x7b', '\x7b'] s).bind fun s1 =>
  (matchIdent (dropSpaces s1)).bind fun pr =>
  let md := matchDotTail pr.2
  if md.1.isEmpty then none
  else
    (dropLit ['\x7d', '\x7d'] (dropSpaces md.2)).map fun s6 => (pr.1 :: md.1, s6)

/-- Anchored match for a block opener `\{\{\s*#kw\s+([^}]+)\s*\}\}` (with
`kw` one of `if`, `each`, `unless`, `with`).  The adjacent greedy pieces
`\s+([^}]+)` jointly match the run `u` of non-`}` characters following the
keyword exactly when `u` starts with whitespace and has length at least two;
the capture is `u` up to redistribution of leading whitespace, which the
caller's `.trim()` erases, so the raw capture returned here is `u` itself.
Returns (raw capture, input after the `}}`). -/
def matchOpenAt (kw : List Char) (s : List Char) : Option (List Char × List Char) :=
  (dropLit ['\x7b', '\x7b'] s).bind fun s1 =>
  (dropLit ('#' :: kw) (dropSpaces s1)).bind fun s3 =>
  let u := s3.takeWhile (fun c => c ≠ '\x7d')
  let v := s3.dropWhile (fun c => c ≠ '\x7d')
  match u with
  | [] => none
  | c :: rest =>
    if isJsSpace c && !rest.isEmpty then
      (dropLit ['\x7d', '\x7d'] v).map fun s4 => (u, s4)
    else none

/-- Anchored match for a block closer `\{\{\s*\/kw\s*\}\}`. -/
def matchCloseAt (kw : List Char) (s : List Char) : Option (List Char) :=
  (dropLit ['\x7b', '\x7b'] s).bind fun s1 =>
  (dropLit ('/' :: kw) (dropSpaces s1)).bind fun s3 =>
  dropLit ['\x7d', '\x7d'] (dropSpaces s3)

/-- Lazy `([\s\S]*?)` followed by the block closer: find the shortest body
such that the closer matches immediately after it.  Returns (body, input
after the closer).  Fuelled; fuel = input length + 1 always suffices. -/
def findCloseF (kw : List Char) : Nat → List Char → Option (List Char × List Char)
  | 0, _ => none
  | fuel + 1, s =>
    match matchCloseAt kw s with
    | some rest => some ([], rest)
    | none =>
      match s with
      | [] => none
      | c :: cs =>
        match findCloseF kw fuel cs with
        | some (body, rest) => some (c :: body, rest)
        | none => none

/-- Anchored match for a full block pattern
`\{\{\s*#kw\s+([^}]+)\s*\}\}([\s\S]*?)\{\{\s*\/kw\s*\}\}`; returns
(raw condition capture, body, input after the match). -/
def matchBlockAt (kw : List Char) (s : List Char) : Option (List Char × List Char × List Char) :=
  (matchOpenAt kw s).bind fun pr =>
  (findCloseF kw (pr.2.length + 1) pr.2).map fun br => (pr.1, br.1, br.2)

/-- One `exec` loop of the global `simpleField` regex: successive leftmost
matches over the text, resuming after each match (fuelled; fuel = text
length suffices since every step consumes at least one character). -/
def scanSimpleF : Nat → List Char → List String
  | 0, _ => []
  | _ + 1, [] => []
  | fuel + 1, s =>
    match matchSimpleAt s with
    | some (name, rest) => name :: scanSimpleF fuel rest
    | none => scanSimpleF fuel s.tail

/-- All matches of the `simpleField` pattern over a text. -/
def scanSimple (s : List Char) : List String :=
  scanSimpleF s.length s

/-- One `exec` loop of the global `nestedField` regex (fuelled). -/
def scanNestedF : Nat → List Char → List (List String)
  | 0, _ => []
  | _ + 1, [] => []
  | fuel + 1, s =>
    match matchNestedAt s with
    | some (parts, rest) => parts :: scanNestedF fuel rest
    | none => scanNestedF fuel s.tail

/-- All matches of the `nestedField` pattern over a text, each as the
dot-separated components of the captured path. -/
def scanNested (s : List Char) : List (List String) :=
  scanNestedF s.length s

/-- One `exec` loop of a global block regex (`conditional`, `loop`,
`unless` or `with`), returning (raw condition capture, body) pairs
(fuelled). -/
def scanBlockF (kw : List Char) : Nat → List Char → List (List Char × List Char)
  | 0, _ => []
  | _ + 1, [] => []
  | fuel + 1, s =>
    match matchBlockAt kw s with
    | some (condRaw, body, rest) => (condRaw, body) :: scanBlockF kw fuel rest
    | none => scanBlockF kw fuel s.tail

/-- All matches of a block pattern over a text. -/
def scanBlock (kw : List Char) (s : List Char) : List (List Char × List Char) :=
  scanBlockF kw s.length s

/-- Field type inference `inferFieldType` from
DocxTemplateUploadModal.svelte: ordered case-insensitive substring tests
over the field name, first match wins, falling through to "text".
`String.prototype.toLowerCase` / `String.prototype.includes` are embedded
as `lowerStr` / `strContains` (field names produced by the parser are ASCII
identifiers, on which `Char.toLower` agrees with JavaScript). -/
def hasPre : List Char → List Char → Bool
  | [], _ => true
  | _ :: _, [] => false
  | n :: ns, h :: hs => n = h && hasPre ns hs

/-- JavaScript `String.prototype.includes`: the needle occurs as a
contiguous substring of the haystack. -/
def containsL (needle : List Char) : List Char → Bool
  | [] => needle.isEmpty
  | h :: hs => hasPre needle (h :: hs) || containsL needle hs

/-- String-level `includes`. -/
def strContains (hay needle : String) : Bool :=
  containsL needle.data hay.data

/-- String-level `toLowerCase`. -/
def lowerStr (s : String) : String :=
  String.mk (s.data.map Char.toLower)

/-- The `inferFieldType` function of DocxTemplateUploadModal.svelte. -/
def inferFieldType (fieldName : String) : String :=
  let n := lowerStr fieldName
  if strContains n "email" || strContains n "mail" then "email"
  else if strContains n "phone" || strContains n "tel" || strContains n "mobile" then
    "phone"
  else if strContains n "date" || strContains n "time" || strContains n "created" ||
      strContains n "updated" || strContains n "birth" || strContains n "due" then
    "date"
  else if strContains n "amount" || strContains n "price" || strContains n "cost" ||
      strContains n "total" || strContains n "count" || strContains n "quantity" ||
      strContains n "age" || strContains n "number" || strContains n "id" then
    "number"
  else if strContains n "is" || strContains n "has" || strContains n "active" ||
      strContains n "enabled" || strContains n "visible" || strContains n "required" then
    "boolean"
  else if strContains n "url" || strContains n "link" || strContains n "website" then
    "url"
  else "text"

/-- The `TemplateField` record of DocxTemplateUploadModal.svelte.  The
JavaScript `type` property is named `fieldType` here; properties that are
absent on some fields (`path`, `condition`, `loopVariable`, `description`)
are `Option`s. -/
structure TemplateField where
  name : String
  fieldType : String
  required : Bool
  path : Option String
  isNested : Bool
  isConditional : Bool
  isLoop : Bool
  condition : Option String
  loopVariable : Option String
  description : Option String
deriving Repr, DecidableEq

/-- The `ParsedTemplate` record: result of `parseDocumenteroTemplate`. -/
structure ParsedTemplate where
  fields : List TemplateField
  conditionals : List String
  loops : List String
  nestedObjects : List String
  totalPlaceholders : Nat
deriving Repr, DecidableEq

/-- The dedup key `field.path || field.name` used by the merge passes of
`parseDocumenteroTemplate` (JavaScript `||`: an absent or empty `path`
falls through to `name`). -/
def jsKey (f : TemplateField) : String :=
  match f.path with
  | some p => if p = "" then f.name else p
  | none => f.name

/-- Dotted join, the JavaScript `parts.join(".")`. -/
def joinDots : List String → String
  | [] => ""
  | [p] => p
  | p :: ps => p ++ "." ++ joinDots ps

/-- In-construction state of one `parseDocumenteroTemplate` invocation:
the insertion-ordered `fieldMap` (a JavaScript `Map` keyed by dedup key)
and the summary accumulators. -/
structure ParseState where
  fieldMap : List (String × TemplateField)
  conditionals : List String
  loops : List String
  nestedObjects : List String
  totalPlaceholders : Nat
deriving Repr

/-- JavaScript `fieldMap.has(k)`. -/
def hasKey (m : List (String × TemplateField)) (k : String) : Bool :=
  m.any (fun p => p.1 == k)

/-- Guarded `if (!fieldMap.has(key)) fieldMap.set(key, f)`: insert only if
the key is absent (insertion order preserved, first occurrence wins). -/
def insertNew (m : List (String × TemplateField)) (k : String) (f : TemplateField) :
    List (String × TemplateField) :=
  if hasKey m k then m else m ++ [(k, f)]

/-- The fresh `TemplateField` recorded by the simple-field pass
(`required: true`, no flags). -/
def simpleFieldFor (name : String) : TemplateField :=
  { name := name, fieldType := inferFieldType name, required := true,
    path := none, isNested := false, isConditional := false, isLoop := false,
    condition := none, loopVariable := none, description := none }

/-- One iteration of the simple-field pass: count the placeholder and
record the field under its name if new. -/
def stepSimple (st : ParseState) (name : String) : ParseState :=
  { st with
    totalPlaceholders := st.totalPlaceholders + 1,
    fieldMap := insertNew st.fieldMap name (simpleFieldFor name) }

/-- The fresh `TemplateField` recorded by the nested-field pass: leaf name,
full dotted path, `isNested`, and a description naming the owning object
path (the source splits the captured path on "."; the scanner already
delivers the components, and `joinDots` rebuilds `fullPath` /
`objectPath`). -/
def nestedFieldFor (parts : List String) : TemplateField :=
  { name := parts.getLastD "", fieldType := inferFieldType (parts.getLastD ""),
    required := true, path := some (joinDots parts), isNested := true,
    isConditional := false, isLoop := false, condition := none,
    loopVariable := none,
    description := some ("Nested field from " ++ joinDots parts.dropLast) }

/-- One iteration of the nested-field pass: count the placeholder and, if
the full dotted path is new, record the nested field and the owning object
path into `nestedObjects`. -/
def stepNested (st : ParseState) (parts : List String) : ParseState :=
  if hasKey st.fieldMap (joinDots parts) then
    { st with totalPlaceholders := st.totalPlaceholders + 1 }
  else
    { st with
      totalPlaceholders := st.totalPlaceholders + 1,
      fieldMap := st.fieldMap ++ [(joinDots parts, nestedFieldFor parts)],
      nestedObjects :=
        if st.nestedObjects.contains (joinDots parts.dropLast) then st.nestedObjects
        else st.nestedObjects ++ [joinDots parts.dropLast] }

/-- A body field re-tagged by the conditional (or `#unless`) pass:
`isConditional`, the governing condition, `required: false`; all other
properties (including `path`, hence the dedup key) are preserved. -/
def retagCond (cond : String) (f : TemplateField) : TemplateField :=
  { f with isConditional := true, condition := some cond, required := false }

/-- A body field re-tagged by the loop pass: `isLoop`, the loop variable,
`required: false`. -/
def retagLoop (lv : String) (f : TemplateField) : TemplateField :=
  { f with isLoop := true, loopVariable := some lv, required := false }

/-- The rewritten dotted path of a body field inside a `#with` block
(JavaScript `field.path ? ctx.path : ctx.name`, where an empty `path` is
falsy). -/
def withPath (ctx : String) (f : TemplateField) : String :=
  match f.path with
  | some pth => if pth = "" then ctx ++ "." ++ f.name else ctx ++ "." ++ pth
  | none => ctx ++ "." ++ f.name

/-- A body field re-tagged by the `#with` pass: rewritten path, `isNested`,
and a context description. -/
def retagWith (ctx : String) (f : TemplateField) : TemplateField :=
  { f with path := some (withPath ctx f), isNested := true,
           description := some ("Field within " ++ ctx ++ " context") }

/-- One iteration of the conditional (`#if`) pass: count the placeholder,
record the trimmed guard, and merge the recursively parsed body fields
re-tagged by `retagCond` under their dedup key (first wins). -/
def stepCond (st : ParseState) (p : String × ParsedTemplate) : ParseState :=
  p.2.fields.foldl
    (fun st2 f =>
      { st2 with fieldMap := insertNew st2.fieldMap (jsKey f) (retagCond p.1 f) })
    { st with totalPlaceholders := st.totalPlaceholders + 1,
              conditionals := st.conditionals ++ [p.1] }

/-- One iteration of the loop (`#each`) pass: count the placeholder, record
the loop variable, and merge the body fields re-tagged by `retagLoop`
(first wins). -/
def stepLoop (st : ParseState) (p : String × ParsedTemplate) : ParseState :=
  p.2.fields.foldl
    (fun st2 f =>
      { st2 with fieldMap := insertNew st2.fieldMap (jsKey f) (retagLoop p.1 f) })
    { st with totalPlaceholders := st.totalPlaceholders + 1,
              loops := st.loops ++ [p.1] }

/-- One iteration of the `#unless` pass: like the conditional pass with the
guard recorded as `NOT <guard>`. -/
def stepUnless (st : ParseState) (p : String × ParsedTemplate) : ParseState :=
  p.2.fields.foldl
    (fun st2 f =>
      { st2 with fieldMap := insertNew st2.fieldMap (jsKey f) (retagCond ("NOT " ++ p.1) f) })
    { st with totalPlaceholders := st.totalPlaceholders + 1,
              conditionals := st.conditionals ++ ["NOT " ++ p.1] }

/-- One iteration of the `#with` pass: count the placeholder, record the
context object into `nestedObjects`, and merge the body fields re-tagged by
`retagWith`, keyed by the rewritten path (first wins). -/
def stepWith (st : ParseState) (p : String × ParsedTemplate) : ParseState :=
  p.2.fields.foldl
    (fun st2 f =>
      { st2 with fieldMap := insertNew st2.fieldMap (withPath p.1 f) (retagWith p.1 f) })
    { st with totalPlaceholders := st.totalPlaceholders + 1,
              nestedObjects :=
                if st.nestedObjects.contains p.1 then st.nestedObjects
                else st.nestedObjects ++ [p.1] }

/-- The empty `ParseState` at the start of one invocation. -/
def initState : ParseState :=
  { fieldMap := [], conditionals := [], loops := [], nestedObjects := [],
    totalPlaceholders := 0 }

/-- The block-scan results of one pass handed to the merge step: trimmed
condition capture (`match[1].trim()`) paired with the sub-parse of the
body. -/
def blockResults (sub : List Char → ParsedTemplate) (kw : List Char)
    (text : List Char) : List (String × ParsedTemplate) :=
  (scanBlock kw text).map (fun p => (String.mk (trimChars p.1), sub p.2))

/-- The six passes of one `parseDocumenteroTemplate` invocation in source
order (simple, nested, `#if`, `#each`, `#unless`, `#with`), each scanning
the whole current text, parameterized by the sub-parser `sub` applied to
block bodies. -/
def parseStage (sub : List Char → ParsedTemplate) (text : List Char) : ParseState :=
  (blockResults sub "with".data text).foldl stepWith
    ((blockResults sub "unless".data text).foldl stepUnless
      ((blockResults sub "each".data text).foldl stepLoop
        ((blockResults sub "if".data text).foldl stepCond
          ((scanNested text).foldl stepNested
            ((scanSimple text).foldl stepSimple initState)))))

/-- The `parseDocumenteroTemplate` body, fuelled for the recursion into
block bodies. -/
def parseAux : Nat → List Char → ParsedTemplate
  | 0, _ =>
    { fields := [], conditionals := [], loops := [], nestedObjects := [],
      totalPlaceholders := 0 }
  | fuel + 1, text =>
    { fields := (parseStage (parseAux fuel) text).fieldMap.map (fun p => p.2),
      conditionals := (parseStage (parseAux fuel) text).conditionals,
      loops := (parseStage (parseAux fuel) text).loops,
      nestedObjects := (parseStage (parseAux fuel) text).nestedObjects,
      totalPlaceholders := (parseStage (parseAux fuel) text).totalPlaceholders }

/-- The `parseDocumenteroTemplate` function of
DocxTemplateUploadModal.svelte.  Fuel `length + 1` always suffices: every
recursive call receives a strictly shorter body (`parseAux_fuel_irrelevant`
below). -/
def parseDocumenteroTemplate (text : String) : ParsedTemplate :=
  parseAux (text.data.length + 1) text.data

/-- Modelled from the spec: the `FieldType` enum of `@budibase/types` is
not part of the sources; the spec's column-type table (email/phone/url/text
to string, number to number, date to datetime, boolean to boolean) fixes
the four values used here. -/
def FieldTypeSTRING : String := "string"

/-- Modelled from the spec: the numeric column type of `@budibase/types`. -/
def FieldTypeNUMBER : String := "number"

/-- Modelled from the spec: the datetime column type of `@budibase/types`. -/
def FieldTypeDATETIME : String := "datetime"

/-- Modelled from the spec: the boolean column type of `@budibase/types`. -/
def FieldTypeBOOLEAN : String := "boolean"

/-- Modelled from the spec: `generateTableID` of builder/src/db/utils is
not part of the sources; the spec only requires a generated identifier, and
no claim depends on its shape. -/
def generateTableID : String := "ta_docx_template"

/-- The `DOCX_TO_BUDIBASE_TYPE_MAP` object of docxTemplateUtils.js as an
insertion-ordered association list. -/
def DOCX_TO_BUDIBASE_TYPE_MAP : List (String × String) :=
  [("text", FieldTypeSTRING), ("email", FieldTypeSTRING),
   ("phone", FieldTypeSTRING), ("number", FieldTypeNUMBER),
   ("date", FieldTypeDATETIME), ("boolean", FieldTypeBOOLEAN),
   ("url", FieldTypeSTRING)]

/-- JavaScript property access `obj[k]` on a plain object: `some` value or
`none` for `undefined` (every value in the maps here is a nonempty string,
hence truthy, so truthiness tests coincide with `Option.isSome`). -/
def objGet (m : List (String × String)) (k : String) : Option String :=
  (m.find? (fun p => p.1 == k)).map (fun p => p.2)

/-- Constraints of one synthesized column.  Properties the source never
writes on a given column are absent in JavaScript and modelled as `false`. -/
structure ColumnConstraints where
  presence : Bool
  email : Bool := false
  url : Bool := false
deriving Repr, DecidableEq

/-- One column of the synthesized table schema.  `autocolumn` and
`dateOnly` are absent-as-false like the constraint extras. -/
structure ColumnDef where
  name : String
  colType : String
  autocolumn : Bool := false
  dateOnly : Bool := false
  constraints : ColumnConstraints
deriving Repr, DecidableEq

/-- The table object returned by `createTableFromDocxFields` (`_id`, name,
`type: "table"`, insertion-ordered schema object, `primaryDisplay`). -/
structure DocxTable where
  tableId : String
  name : String
  tableType : String
  schema : List (String × ColumnDef)
  primaryDisplay : String
deriving Repr, DecidableEq

/-- JavaScript property assignment `obj[k] = v` on a plain object:
overwrite in place if the key exists, else append. -/
def objSet (obj : List (String × ColumnDef)) (k : String) (v : ColumnDef) :
    List (String × ColumnDef) :=
  if obj.any (fun p => p.1 == k) then
    obj.map (fun p => if p.1 == k then (k, v) else p)
  else obj ++ [(k, v)]

/-- The auto-generated `_id` column installed first by
`createTableFromDocxFields`. -/
def idColumn : ColumnDef :=
  { name := "_id", colType := FieldTypeSTRING, autocolumn := true,
    constraints := { presence := false } }

/-- Whether a field is skipped by the Phase-1 passes
(`field.isNested || field.isConditional || field.isLoop`). -/
def isComplex (f : TemplateField) : Bool :=
  f.isNested || f.isConditional || f.isLoop

/-- The schema column built for one compatible field inside the
`createTableFromDocxFields` loop: mapped Budibase type (defaulting to
string), presence constraint from `required`, then the type-specific
extras (`email` / `url` constraint, `dateOnly`). -/
def columnForField (f : TemplateField) : ColumnDef :=
  { name := f.name,
    colType := (objGet DOCX_TO_BUDIBASE_TYPE_MAP f.fieldType).getD FieldTypeSTRING,
    autocolumn := false,
    dateOnly := f.fieldType == "date",
    constraints := { presence := f.required,
                     email := f.fieldType == "email",
                     url := f.fieldType == "url" } }

/-- One iteration of the `createTableFromDocxFields` schema loop: skip
complex fields, otherwise assign the field's column under its name. -/
def schemaStep (sch : List (String × ColumnDef)) (f : TemplateField) :
    List (String × ColumnDef) :=
  if isComplex f then sch else objSet sch f.name (columnForField f)

/-- The `createTableFromDocxFields` function of docxTemplateUtils.js. -/
def createTableFromDocxFields (fields : List TemplateField) (tableName : String) :
    DocxTable :=
  let schema := fields.foldl schemaStep (objSet [] "_id" idColumn)
  { tableId := generateTableID,
    name := tableName,
    tableType := "table",
    schema := schema,
    primaryDisplay :=
      match fields.find? (fun f => f.fieldType == "text") with
      | some f => if f.name = "" then "_id" else f.name
      | none => "_id" }

/-- Skip criterion of `validateDocxFieldsForPhase1`: a provenance flag is
set, or the field's type has no entry in `DOCX_TO_BUDIBASE_TYPE_MAP`. -/
def shouldSkipField (f : TemplateField) : Bool :=
  isComplex f || (objGet DOCX_TO_BUDIBASE_TYPE_MAP f.fieldType).isNone

/-- The advisory warning `validateDocxFieldsForPhase1` pushes for one
skipped field (the flag named in the message resolves in the order nested,
then conditional, then loop). -/
def skipWarning (f : TemplateField) : String :=
  if isComplex f then
    "Skipped complex field: " ++ f.name ++ " (" ++
      (if f.isNested then "nested"
       else if f.isConditional then "conditional"
       else "loop") ++ ")"
  else
    "Skipped unsupported field type: " ++ f.name ++ " (" ++ f.fieldType ++ ")"

/-- The result object of `validateDocxFieldsForPhase1`. -/
structure DocxValidation where
  compatibleFields : List TemplateField
  skippedFields : List TemplateField
  warnings : List String
  hasCompatibleFields : Bool
deriving Repr, DecidableEq

/-- One iteration of the `validateDocxFieldsForPhase1` loop over the
accumulator (compatible, skipped, warnings): push the field into the
compatible or the skipped list, with one warning per skipped field. -/
def validateStep (acc : List TemplateField × List TemplateField × List String)
    (f : TemplateField) : List TemplateField × List TemplateField × List String :=
  if shouldSkipField f then
    (acc.1, acc.2.1 ++ [f], acc.2.2 ++ [skipWarning f])
  else
    (acc.1 ++ [f], acc.2.1, acc.2.2)

/-- The `validateDocxFieldsForPhase1` function of docxTemplateUtils.js:
one pass over the fields (it never throws: every branch only pushes into
an accumulator). -/
def validateDocxFieldsForPhase1 (fields : List TemplateField) : DocxValidation :=
  { compatibleFields := (fields.foldl validateStep ([], [], [])).1,
    skippedFields := (fields.foldl validateStep ([], [], [])).2.1,
    warnings := (fields.foldl validateStep ([], [], [])).2.2,
    hasCompatibleFields := decide (0 < (fields.foldl validateStep ([], [], [])).1.length) }

/-- The ordered keyword-rule table of spec section 4.3, written from the
spec's words for comparison with the source's `inferFieldType`. -/
def specTypeRules : List (List String × String) :=
  [(["email", "mail"], "email"),
   (["phone", "tel", "mobile"], "phone"),
   (["date", "time", "created", "updated", "birth", "due"], "date"),
   (["amount", "price", "cost", "total", "count", "quantity", "age", "number", "id"], "number"),
   (["is", "has", "active", "enabled", "visible", "required"], "boolean"),
   (["url", "link", "website"], "url")]

/-- Spec-side reading of the type inferencer: scan the ordered rule table,
first rule any of whose keywords occurs (case-insensitively) in the name
wins, otherwise "text". -/
def inferFieldTypeSpec (name : String) : String :=
  let n := lowerStr name
  match specTypeRules.find? (fun r => r.1.any (fun kw => strContains n kw)) with
  | some r => r.2
  | none => "text"

/-- The source's if-chain agrees with the spec's ordered rule table on
every name (exhaustive case split on the 29 keyword-occurrence tests). -/
theorem inferFieldType_eq_spec (name : String) :
    inferFieldType name = inferFieldTypeSpec name := by
  unfold inferFieldType inferFieldTypeSpec specTypeRules
  simp only [List.find?_cons, List.any_cons, List.any_nil, List.find?_nil]
  cases h : strContains (lowerStr name) "email" <;> simp only [h, Bool.false_or, Bool.true_or, Bool.or_false, Bool.or_true, Bool.false_eq_true, if_true, if_false] <;> clear h
  cases h : strContains (lowerStr name) "mail" <;> simp only [h, Bool.false_or, Bool.true_or, Bool.or_false, Bool.or_true, Bool.false_eq_true, if_true, if_false] <;> clear h
  cases h : strContains (lowerStr name) "phone" <;> simp only [h, Bool.false_or, Bool.true_or, Bool.or_false, Bool.or_true, Bool.false_eq_true, if_true, if_false] <;> clear h
  cases h : strContains (lowerStr name) "tel" <;> simp only [h, Bool.false_or, Bool.true_or, Bool.or_false, Bool.or_true, Bool.false_eq_true, if_true, if_false] <;> clear h
  cases h : strContains (lowerStr name) "mobile" <;> simp only [h, Bool.false_or, Bool.true_or, Bool.or_false, Bool.or_true, Bool.false_eq_true, if_true, if_false] <;> clear h
  cases h : strContains (lowerStr name) "date" <;> simp only [h, Bool.false_or, Bool.true_or, Bool.or_false, Bool.or_true, Bool.false_eq_true, if_true, if_false] <;> clear h
  cases h : strContains (lowerStr name) "time" <;> simp only [h, Bool.false_or, Bool.true_or, Bool.or_false, Bool.or_true, Bool.false_eq_true, if_true, if_false] <;> clear h
  cases h : strContains (lowerStr name) "created" <;> simp only [h, Bool.false_or, Bool.true_or, Bool.or_false, Bool.or_true, Bool.false_eq_true, if_true, if_false] <;> clear h
  cases h : strContains (lowerStr name) "updated" <;> simp only [h, Bool.false_or, Bool.true_or, Bool.or_false, Bool.or_true, Bool.false_eq_true, if_true, if_false] <;> clear h
  cases h : strContains (lowerStr name) "birth" <;> simp only [h, Bool.false_or, Bool.true_or, Bool.or_false, Bool.or_true, Bool.false_eq_true, if_true, if_false] <;> clear h
  cases h : strContains (lowerStr name) "due" <;> simp only [h, Bool.false_or, Bool.true_or, Bool.or_false, Bool.or_true, Bool.false_eq_true, if_true, if_false] <;> clear h
  cases h : strContains (lowerStr name) "amount" <;> simp only [h, Bool.false_or, Bool.true_or, Bool.or_false, Bool.or_true, Bool.false_eq_true, if_true, if_false] <;> clear h
  cases h : strContains (lowerStr name) "price" <;> simp only [h, Bool.false_or, Bool.true_or, Bool.or_false, Bool.or_true, Bool.false_eq_true, if_true, if_false] <;> clear h
  cases h : strContains (lowerStr name) "cost" <;> simp only [h, Bool.false_or, Bool.true_or, Bool.or_false, Bool.or_true, Bool.false_eq_true, if_true, if_false] <;> clear h
  cases h : strContains (lowerStr name) "total" <;> simp only [h, Bool.false_or, Bool.true_or, Bool.or_false, Bool.or_true, Bool.false_eq_true, if_true, if_false] <;> clear h
  cases h : strContains (lowerStr name) "count" <;> simp only [h, Bool.false_or, Bool.true_or, Bool.or_false, Bool.or_true, Bool.false_eq_true, if_true, if_false] <;> clear h
  cases h : strContains (lowerStr name) "quantity" <;> simp only [h, Bool.false_or, Bool.true_or, Bool.or_false, Bool.or_true, Bool.false_eq_true, if_true, if_false] <;> clear h
  cases h : strContains (lowerStr name) "age" <;> simp only [h, Bool.false_or, Bool.true_or, Bool.or_false, Bool.or_true, Bool.false_eq_true, if_true, if_false] <;> clear h
  cases h : strContains (lowerStr name) "number" <;> simp only [h, Bool.false_or, Bool.true_or, Bool.or_false, Bool.or_true, Bool.false_eq_true, if_true, if_false] <;> clear h
  cases h : strContains (lowerStr name) "id" <;> simp only [h, Bool.false_or, Bool.true_or, Bool.or_false, Bool.or_true, Bool.false_eq_true, if_true, if_false] <;> clear h
  cases h : strContains (lowerStr name) "is" <;> simp only [h, Bool.false_or, Bool.true_or, Bool.or_false, Bool.or_true, Bool.false_eq_true, if_true, if_false] <;> clear h
  cases h : strContains (lowerStr name) "has" <;> simp only [h, Bool.false_or, Bool.true_or, Bool.or_false, Bool.or_true, Bool.false_eq_true, if_true, if_false] <;> clear h
  cases h : strContains (lowerStr name) "active" <;> simp only [h, Bool.false_or, Bool.true_or, Bool.or_false, Bool.or_true, Bool.false_eq_true, if_true, if_false] <;> clear h
  cases h : strContains (lowerStr name) "enabled" <;> simp only [h, Bool.false_or, Bool.true_or, Bool.or_false, Bool.or_true, Bool.false_eq_true, if_true, if_false] <;> clear h
  cases h : strContains (lowerStr name) "visible" <;> simp only [h, Bool.false_or, Bool.true_or, Bool.or_false, Bool.or_true, Bool.false_eq_true, if_true, if_false] <;> clear h
  cases h : strContains (lowerStr name) "required" <;> simp only [h, Bool.false_or, Bool.true_or, Bool.or_false, Bool.or_true, Bool.false_eq_true, if_true, if_false] <;> clear h
  cases h : strContains (lowerStr name) "url" <;> simp only [h, Bool.false_or, Bool.true_or, Bool.or_false, Bool.or_true, Bool.false_eq_true, if_true, if_false] <;> clear h
  cases h : strContains (lowerStr name) "link" <;> simp only [h, Bool.false_or, Bool.true_or, Bool.or_false, Bool.or_true, Bool.false_eq_true, if_true, if_false] <;> clear h
  cases h : strContains (lowerStr name) "website" <;> simp only [h, Bool.false_or, Bool.true_or, Bool.or_false, Bool.or_true, Bool.false_eq_true, if_true, if_false]

/-- Dropping a prefix by predicate never lengthens a list. -/
theorem dropWhileLen (p : Char → Bool) :
    ∀ s : List Char, (s.dropWhile p).length ≤ s.length := by
  intro s
  induction s with
  | nil => simp
  | cons c cs ih =>
    by_cases h : p c <;> simp [List.dropWhile_cons, h] <;> omega

/-- `dropSpaces` never lengthens its input. -/
theorem dropSpacesLen (s : List Char) : (dropSpaces s).length ≤ s.length :=
  dropWhileLen isJsSpace s

/-- `takeWhile` and `dropWhile` split the length of a list. -/
theorem takeDropLen (p : Char → Bool) (l : List Char) :
    (l.takeWhile p).length + (l.dropWhile p).length = l.length := by
  induction l with
  | nil => simp
  | cons c cs ih =>
    by_cases h : p c <;> simp [List.takeWhile_cons, List.dropWhile_cons, h] <;> omega

/-- A successful `dropLit` consumes exactly the literal's length. -/
theorem dropLitLen :
    ∀ ps s r : List Char, dropLit ps s = some r → r.length + ps.length = s.length := by
  intro ps
  induction ps with
  | nil =>
    intro s r h
    simp only [dropLit, Option.some.injEq] at h
    simp [h]
  | cons p pt ih =>
    intro s r h
    cases s with
    | nil => simp [dropLit] at h
    | cons c cs =>
      simp only [dropLit] at h
      split at h
      · have := ih cs r h
        simp
        omega
      · exact absurd h (by simp)

/-- A successful `matchIdent` consumes at least one character. -/
theorem matchIdentLen (s : List Char) (n : String) (r : List Char)
    (h : matchIdent s = some (n, r)) : r.length < s.length := by
  cases s with
  | nil => simp [matchIdent] at h
  | cons c cs =>
    simp only [matchIdent] at h
    split at h
    · simp only [Option.some.injEq, Prod.mk.injEq] at h
      have hr : r = cs.dropWhile isIdentChar := h.2.symm
      have := dropWhileLen isIdentChar cs
      simp [hr, List.length_cons]
      omega
    · simp at h

/-- The remainder after a dot-chain is never longer than the input. -/
theorem matchDotTailFLen (fuel : Nat) :
    ∀ s : List Char, (matchDotTailF fuel s).2.length ≤ s.length := by
  induction fuel with
  | zero => intro s; simp [matchDotTailF]
  | succ fuel ih =>
    intro s
    match s with
    | [] => simp [matchDotTailF]
    | c :: rest =>
      by_cases hc : c = '.'
      · subst hc
        simp only [matchDotTailF]
        cases hm : matchIdent rest with
        | none => simp
        | some pr =>
          obtain ⟨name, r2⟩ := pr
          rcases hmt : matchDotTailF fuel r2 with ⟨more, r3⟩
          have h1 := matchIdentLen rest name r2 hm
          have h2 := ih r2
          rw [hmt] at h2
          simp [hmt]
          simp at h2
          omega
      · cases c <;> simp_all [matchDotTailF]

/-- A successful `matchSimpleAt` consumes at least one character. -/
theorem matchSimpleAtLen (s : List Char) (n : String) (r : List Char)
    (h : matchSimpleAt s = some (n, r)) : r.length < s.length := by
  simp only [matchSimpleAt, Option.bind_eq_some, Option.map_eq_some'] at h
  obtain ⟨s1, h1, pr, h2, s5, h3, heq⟩ := h
  rw [Prod.mk.injEq] at heq
  obtain ⟨-, heqr⟩ := heq
  subst heqr
  have e1 := dropLitLen _ _ _ h1
  have e2 := dropSpacesLen s1
  have e3 := matchIdentLen _ _ _ h2
  have e4 := dropSpacesLen pr.2
  have e5 := dropLitLen _ _ _ h3
  simp at e1 e5
  omega

/-- A successful block opener consumes the `{{`, the keyword, a condition
of at least two characters, and the `}}`. -/
theorem matchOpenAtLen (kw : List Char) (s : List Char) (u r : List Char)
    (h : matchOpenAt kw s = some (u, r)) : r.length + 4 ≤ s.length ∧ 2 ≤ u.length := by
  simp only [matchOpenAt, Option.bind_eq_some] at h
  obtain ⟨s1, h1, s3, h3, hrest⟩ := h
  have e1 := dropLitLen _ _ _ h1
  have e3 := dropLitLen _ _ _ h3
  have e2 := dropSpacesLen s1
  split at hrest
  · exact absurd hrest (by simp)
  next c rest hu =>
    split at hrest
    next hcond =>
      simp only [Option.map_eq_some'] at hrest
      obtain ⟨s4, h4, heq⟩ := hrest
      rw [Prod.mk.injEq] at heq
      obtain ⟨hequ, heqr⟩ := heq
      subst heqr
      have e4 := dropLitLen _ _ _ h4
      have husplit := takeDropLen (fun c => c ≠ '\x7d') s3
      have hulen : 2 ≤ u.length := by
        rw [← hequ, hu]
        cases rest with
        | nil => simp at hcond
        | cons a b => simp
      have hutw : u.length = (s3.takeWhile (fun c => c ≠ '\x7d')).length := by
        rw [hequ]
      simp only [List.length_cons, List.length_nil] at e1 e3 e4
      constructor
      · omega
      · exact hulen
    · exact absurd hrest (by simp)

/-- A successful block closer consumes at least `{{/kw}}`. -/
theorem matchCloseAtLen (kw : List Char) (s r : List Char)
    (h : matchCloseAt kw s = some r) : r.length + 4 ≤ s.length := by
  simp only [matchCloseAt, Option.bind_eq_some] at h
  obtain ⟨s1, h1, s3, h3, h4⟩ := h
  have e1 := dropLitLen _ _ _ h1
  have e2 := dropSpacesLen s1
  have e3 := dropLitLen _ _ _ h3
  have e4 := dropSpacesLen s3
  have e5 := dropLitLen _ _ _ h4
  simp only [List.length_cons, List.length_nil] at e1 e3 e5
  omega

/-- The body and remainder of a found block closer are jointly shorter
than the input by at least the closer's length. -/
theorem findCloseFLen (kw : List Char) (fuel : Nat) :
    ∀ s body rest : List Char, findCloseF kw fuel s = some (body, rest) →
      body.length + rest.length + 4 ≤ s.length := by
  induction fuel with
  | zero => intro s body rest h; simp [findCloseF] at h
  | succ fuel ih =>
    intro s body rest h
    simp only [findCloseF] at h
    cases hc : matchCloseAt kw s with
    | some r0 =>
      rw [hc] at h
      simp only [Option.some.injEq, Prod.mk.injEq] at h
      have := matchCloseAtLen kw s r0 hc
      obtain ⟨hb, hr⟩ := h
      subst hb
      subst hr
      simpa using this
    | none =>
      rw [hc] at h
      cases s with
      | nil => simp at h
      | cons c cs =>
        simp only [] at h
        cases hf : findCloseF kw fuel cs with
        | none => rw [hf] at h; simp at h
        | some pr =>
          obtain ⟨body2, rest2⟩ := pr
          rw [hf] at h
          simp only [Option.some.injEq, Prod.mk.injEq] at h
          obtain ⟨hb, hr⟩ := h
          have := ih cs body2 rest2 hf
          subst hb
          subst hr
          simp only [List.length_cons]
          omega

/-- A matched block's body and remainder are strictly shorter than the
input: the ground fact behind the parser's termination. -/
theorem matchBlockAtLen (kw : List Char) (s condRaw body rest : List Char)
    (h : matchBlockAt kw s = some (condRaw, body, rest)) :
    body.length < s.length ∧ rest.length < s.length := by
  simp only [matchBlockAt, Option.bind_eq_some, Option.map_eq_some'] at h
  obtain ⟨pr, hopen, br, hfind, heq⟩ := h
  have ho := matchOpenAtLen kw s pr.1 pr.2 (by rw [← hopen])
  have hf := findCloseFLen kw (pr.2.length + 1) pr.2 br.1 br.2 (by rw [← hfind])
  rw [Prod.mk.injEq] at heq
  obtain ⟨-, heq2⟩ := heq
  rw [Prod.mk.injEq] at heq2
  obtain ⟨hb, hr⟩ := heq2
  subst hb
  subst hr
  omega

/-- Every block body produced by a block scan is strictly shorter than the
scanned text. -/
theorem scanBlockFBodyLt (kw : List Char) (fuel : Nat) :
    ∀ s : List Char, ∀ p ∈ scanBlockF kw fuel s, p.2.length < s.length := by
  induction fuel with
  | zero => intro s p hp; simp [scanBlockF] at hp
  | succ fuel ih =>
    intro s p hp
    cases s with
    | nil => simp [scanBlockF] at hp
    | cons c cs =>
      simp only [scanBlockF] at hp
      cases hm : matchBlockAt kw (c :: cs) with
      | some tr =>
        obtain ⟨condRaw, body, rest⟩ := tr
        rw [hm] at hp
        simp only [List.mem_cons] at hp
        have hlen := matchBlockAtLen kw (c :: cs) condRaw body rest hm
        cases hp with
        | inl hp => rw [hp]; exact hlen.1
        | inr hp =>
          have := ih rest p hp
          omega
      | none =>
        rw [hm] at hp
        have := ih cs p hp
        simp only [List.length_cons]
        omega

/-- The six passes depend on the sub-parser only through its values on the
scanned block bodies. -/
theorem parseStageCongr (sub1 sub2 : List Char → ParsedTemplate) (text : List Char)
    (h : ∀ kw : List Char, ∀ p ∈ scanBlock kw text, sub1 p.2 = sub2 p.2) :
    parseStage sub1 text = parseStage sub2 text := by
  unfold parseStage
  have hcong : ∀ kw : List Char,
      blockResults sub1 kw text = blockResults sub2 kw text := by
    intro kw
    unfold blockResults
    apply List.map_congr_left
    intro p hp
    rw [h kw p hp]
  rw [hcong ("if".data), hcong ("each".data), hcong ("unless".data),
    hcong ("with".data)]

/-- Any fuel strictly above the text length yields the same parse: the
recursion depth of `parseDocumenteroTemplate` is bounded by the input
length because every block body is strictly shorter than its text. -/
theorem parseAuxCongr : ∀ L : Nat, ∀ text : List Char, text.length ≤ L →
    ∀ f1 f2 : Nat, text.length < f1 → text.length < f2 →
      parseAux f1 text = parseAux f2 text := by
  intro L
  induction L with
  | zero =>
    intro text hlen f1 f2 h1 h2
    have htext : text = [] := List.length_eq_zero.mp (Nat.le_zero.mp hlen)
    subst htext
    cases f1 with
    | zero => omega
    | succ a =>
      cases f2 with
      | zero => omega
      | succ b => rfl
  | succ L ih =>
    intro text hlen f1 f2 h1 h2
    cases f1 with
    | zero => omega
    | succ a =>
      cases f2 with
      | zero => omega
      | succ b =>
        simp only [parseAux]
        have hstage : parseStage (parseAux a) text = parseStage (parseAux b) text := by
          apply parseStageCongr
          intro kw p hp
          have hlt := scanBlockFBodyLt kw text.length text p hp
          exact ih p.2 (by omega) a b (by omega) (by omega)
        rw [hstage]

/-- Fuel irrelevance at the top level. -/
theorem parseAuxFuelIrrelevant (text : List Char) (f1 f2 : Nat)
    (h1 : text.length < f1) (h2 : text.length < f2) :
    parseAux f1 text = parseAux f2 text :=
  parseAuxCongr text.length text (Nat.le_refl _) f1 f2 h1 h2

/-- Invariant of the in-construction field map: every stored field's dedup
key equals its map key, and the map keys are pairwise distinct (a
JavaScript `Map` cannot hold two entries under one key). -/
def mapInv (m : List (String × TemplateField)) : Prop :=
  (∀ p ∈ m, jsKey p.2 = p.1) ∧ (m.map Prod.fst).Nodup

def stInv (st : ParseState) : Prop := mapInv st.fieldMap

theorem initInv : stInv initState :=
  ⟨fun p hp => absurd hp (List.not_mem_nil p), List.nodup_nil⟩

theorem hasKeyFalse (m : List (String × TemplateField)) (k : String)
    (h : hasKey m k = false) : ∀ p ∈ m, p.1 ≠ k := by
  intro p hp hk
  have : hasKey m k = true := by
    simp only [hasKey, List.any_eq_true]
    exact ⟨p, hp, by simp [hk]⟩
  rw [this] at h
  exact Bool.noConfusion h

theorem mapInvAppend (m : List (String × TemplateField)) (k : String) (f : TemplateField)
    (hm : mapInv m) (hk : jsKey f = k) (habs : hasKey m k = false) :
    mapInv (m ++ [(k, f)]) := by
  constructor
  · intro p hp
    rcases List.mem_append.mp hp with h1 | h2
    · exact hm.1 p h1
    · have : p = (k, f) := by simpa using h2
      rw [this]
      exact hk
  · rw [List.map_append]
    apply List.Nodup.append hm.2 (List.nodup_singleton k)
    intro a ha hb
    have : a = k := by simpa using hb
    subst this
    obtain ⟨p, hp, hpk⟩ := List.mem_map.mp ha
    exact hasKeyFalse m a habs p hp hpk

theorem insertNewInv (m : List (String × TemplateField)) (k : String) (f : TemplateField)
    (hm : mapInv m) (hk : jsKey f = k) : mapInv (insertNew m k f) := by
  unfold insertNew
  by_cases h : hasKey m k
  · simp [h]
    exact hm
  · rw [Bool.not_eq_true] at h
    simp only [h, Bool.false_eq_true, if_false]
    exact mapInvAppend m k f hm hk h

theorem foldStInvMem {β : Type} (step : ParseState → β → ParseState) :
    ∀ (l : List β) (st : ParseState), stInv st →
      (∀ st2 x, x ∈ l → stInv st2 → stInv (step st2 x)) → stInv (l.foldl step st) := by
  intro l
  induction l with
  | nil => intro st h _; simpa using h
  | cons x xs ih =>
    intro st h hp
    simp only [List.foldl_cons]
    exact ih (step st x) (hp st x (List.mem_cons_self x xs) h)
      (fun st2 y hy h2 => hp st2 y (List.mem_cons_of_mem x hy) h2)

theorem stepSimpleInv (st : ParseState) (name : String) (h : stInv st) :
    stInv (stepSimple st name) :=
  insertNewInv _ _ _ h rfl

theorem appendDotNe (a b : String) : a ++ "." ++ b ≠ "" := by
  intro hc
  have := congrArg String.length hc
  simp [String.length_append] at this
  have hdot : (".").length = 1 := rfl
  omega

theorem joinDotsNe (hd : String) (tl : List String) (h : hd ≠ "") :
    joinDots (hd :: tl) ≠ "" := by
  cases tl with
  | nil => simpa [joinDots] using h
  | cons p ps =>
    simp only [joinDots]
    exact appendDotNe hd (joinDots (p :: ps))

theorem stepNestedInv (st : ParseState) (parts : List String)
    (hw : ∃ hd tl, parts = hd :: tl ∧ hd ≠ "") (h : stInv st) :
    stInv (stepNested st parts) := by
  obtain ⟨hd, tl, rfl, hhd⟩ := hw
  unfold stepNested
  by_cases hk : hasKey st.fieldMap (joinDots (hd :: tl))
  · simp only [hk, if_true]
    exact h
  · rw [Bool.not_eq_true] at hk
    simp only [hk, Bool.false_eq_true, if_false]
    refine mapInvAppend _ _ _ h ?_ hk
    simp only [nestedFieldFor, jsKey]
    rw [if_neg (joinDotsNe hd tl hhd)]

theorem stepCondInv (st : ParseState) (x : String × ParsedTemplate) (h : stInv st) :
    stInv (stepCond st x) := by
  unfold stepCond
  refine foldStInvMem _ _ _ h ?_
  intro st2 f hf h2
  exact insertNewInv _ _ _ h2 rfl

theorem stepLoopInv (st : ParseState) (x : String × ParsedTemplate) (h : stInv st) :
    stInv (stepLoop st x) := by
  unfold stepLoop
  refine foldStInvMem _ _ _ h ?_
  intro st2 f hf h2
  exact insertNewInv _ _ _ h2 rfl

theorem stepUnlessInv (st : ParseState) (x : String × ParsedTemplate) (h : stInv st) :
    stInv (stepUnless st x) := by
  unfold stepUnless
  refine foldStInvMem _ _ _ h ?_
  intro st2 f hf h2
  exact insertNewInv _ _ _ h2 rfl

theorem withPathNe (ctx : String) (f : TemplateField) : withPath ctx f ≠ "" := by
  unfold withPath
  cases f.path with
  | none => exact appendDotNe ctx f.name
  | some pth =>
    by_cases he : pth = ""
    · simp only [he, if_true]
      exact appendDotNe ctx f.name
    · simp only [he, if_false]
      exact appendDotNe ctx pth

theorem stepWithInv (st : ParseState) (x : String × ParsedTemplate) (h : stInv st) :
    stInv (stepWith st x) := by
  unfold stepWith
  refine foldStInvMem _ _ _ h ?_
  intro st2 f hf h2
  apply insertNewInv _ _ _ h2
  simp only [retagWith, jsKey]
  rw [if_neg (withPathNe x.1 f)]

theorem matchIdentNe (s : List Char) (n : String) (r : List Char)
    (h : matchIdent s = some (n, r)) : n ≠ "" := by
  cases s with
  | nil => simp [matchIdent] at h
  | cons c cs =>
    simp only [matchIdent] at h
    split at h
    · simp only [Option.some.injEq, Prod.mk.injEq] at h
      intro hc
      rw [← h.1] at hc
      have := congrArg String.data hc
      simp at this
    · simp at h

theorem matchNestedAtParts (s : List Char) (parts : List String) (r : List Char)
    (h : matchNestedAt s = some (parts, r)) : ∃ hd tl, parts = hd :: tl ∧ hd ≠ "" := by
  simp only [matchNestedAt, Option.bind_eq_some] at h
  obtain ⟨s1, h1, pr, h2, hrest⟩ := h
  split at hrest
  · exact absurd hrest (by simp)
  · simp only [Option.map_eq_some'] at hrest
    obtain ⟨s6, h6, heq⟩ := hrest
    rw [Prod.mk.injEq] at heq
    obtain ⟨hp, -⟩ := heq
    exact ⟨pr.1, (matchDotTail pr.2).1, hp.symm, matchIdentNe _ _ _ h2⟩

theorem scanNestedFParts (fuel : Nat) :
    ∀ s : List Char, ∀ parts ∈ scanNestedF fuel s, ∃ hd tl, parts = hd :: tl ∧ hd ≠ "" := by
  induction fuel with
  | zero => intro s parts hp; simp [scanNestedF] at hp
  | succ fuel ih =>
    intro s parts hp
    cases s with
    | nil => simp [scanNestedF] at hp
    | cons c cs =>
      simp only [scanNestedF] at hp
      cases hm : matchNestedAt (c :: cs) with
      | some pr =>
        obtain ⟨parts2, rest⟩ := pr
        rw [hm] at hp
        simp only [List.mem_cons] at hp
        cases hp with
        | inl hp => rw [hp]; exact matchNestedAtParts _ _ _ hm
        | inr hp => exact ih rest parts hp
      | none =>
        rw [hm] at hp
        exact ih cs parts hp

theorem pairwiseOfInv (st : ParseState) (h : stInv st) :
    (st.fieldMap.map (fun p => p.2)).Pairwise (fun f g => jsKey f ≠ jsKey g) := by
  obtain ⟨hcons, hnodup⟩ := h
  have h1 : st.fieldMap.Pairwise (fun p q => p.1 ≠ q.1) := List.pairwise_map.mp hnodup
  have h2 : st.fieldMap.Pairwise (fun p q => jsKey p.2 ≠ jsKey q.2) := by
    refine h1.imp_of_mem ?_
    intro a b ha hb hne
    rw [hcons a ha, hcons b hb]
    exact hne
  exact List.pairwise_map.mpr h2

theorem parseStageInv (sub : List Char → ParsedTemplate) (text : List Char) :
    stInv (parseStage sub text) := by
  unfold parseStage
  apply foldStInvMem _ _ _ ?_ (fun st2 x hx h2 => stepWithInv st2 x h2)
  apply foldStInvMem _ _ _ ?_ (fun st2 x hx h2 => stepUnlessInv st2 x h2)
  apply foldStInvMem _ _ _ ?_ (fun st2 x hx h2 => stepLoopInv st2 x h2)
  apply foldStInvMem _ _ _ ?_ (fun st2 x hx h2 => stepCondInv st2 x h2)
  apply foldStInvMem _ _ _ ?_
    (fun st2 x hx h2 => stepNestedInv st2 x (scanNestedFParts text.length text x hx) h2)
  exact foldStInvMem _ _ _ initInv (fun st2 x hx h2 => stepSimpleInv st2 x h2)

theorem parseAuxPairwise (fuel : Nat) (text : List Char) :
    ((parseAux fuel text).fields).Pairwise (fun f g => jsKey f ≠ jsKey g) := by
  cases fuel with
  | zero => exact List.Pairwise.nil
  | succ fuel => exact pairwiseOfInv _ (parseStageInv (parseAux fuel) text)

/-- Characterization of the validator accumulator as filters and a map
(the inductive content of the partition claim). -/
theorem validateFoldChar (fields : List TemplateField) :
    ∀ acc : List TemplateField × List TemplateField × List String,
      fields.foldl validateStep acc
      = (acc.1 ++ fields.filter (fun f => !shouldSkipField f),
         acc.2.1 ++ fields.filter shouldSkipField,
         acc.2.2 ++ (fields.filter shouldSkipField).map skipWarning) := by
  induction fields with
  | nil => intro acc; simp
  | cons f fs ih =>
    intro acc
    simp only [List.foldl_cons]
    rw [ih]
    by_cases h : shouldSkipField f
    · simp [validateStep, List.filter_cons, h]
    · simp [validateStep, List.filter_cons, h]

theorem validateChar (fields : List TemplateField) :
    (validateDocxFieldsForPhase1 fields).compatibleFields
        = fields.filter (fun f => !shouldSkipField f)
    ∧ (validateDocxFieldsForPhase1 fields).skippedFields
        = fields.filter shouldSkipField
    ∧ (validateDocxFieldsForPhase1 fields).warnings
        = (fields.filter shouldSkipField).map skipWarning := by
  unfold validateDocxFieldsForPhase1
  rw [validateFoldChar fields ([], [], [])]
  simp

theorem filterLenSplit (fields : List TemplateField) :
    (fields.filter (fun f => !shouldSkipField f)).length
      + (fields.filter shouldSkipField).length = fields.length := by
  induction fields with
  | nil => simp
  | cons f fs ih =>
    by_cases h : shouldSkipField f <;> simp [List.filter_cons, h] <;> omega

def schemaLookup (sch : List (String × ColumnDef)) (k : String) : Option ColumnDef :=
  (sch.find? (fun p => p.1 == k)).map (fun p => p.2)

theorem schemaFoldAppend :
    ∀ (fields : List TemplateField) (sch0 : List (String × ColumnDef)),
      (∀ f ∈ fields, isComplex f = false → sch0.any (fun p => p.1 == f.name) = false) →
      ((fields.filter (fun f => !isComplex f)).map (fun f => f.name)).Nodup →
      fields.foldl schemaStep sch0
        = sch0 ++ (fields.filter (fun f => !isComplex f)).map
            (fun f => (f.name, columnForField f)) := by
  intro fields
  induction fields with
  | nil => intro sch0 _ _; simp
  | cons f fs ih =>
    intro sch0 h0 hnodup
    simp only [List.foldl_cons]
    by_cases h : isComplex f
    · rw [show schemaStep sch0 f = sch0 by simp [schemaStep, h]]
      rw [ih sch0 (fun g hg hc => h0 g (List.mem_cons_of_mem f hg) hc) ?hnd]
      · simp [List.filter_cons, h]
      · simpa [List.filter_cons, h] using hnodup
    · rw [Bool.not_eq_true] at h
      have hany := h0 f (List.mem_cons_self f fs) h
      have hstep : schemaStep sch0 f = sch0 ++ [(f.name, columnForField f)] := by
        simp [schemaStep, h, objSet, hany]
      rw [hstep]
      simp only [List.filter_cons, h, Bool.not_false, if_true]
      have hnodup' : (f.name ::
          (fs.filter (fun g => !isComplex g)).map (fun g => g.name)).Nodup := by
        simpa only [List.filter_cons, h, Bool.not_false, if_true, List.map_cons]
          using hnodup
      have hnodup2 := (List.nodup_cons.mp hnodup').2
      have hnotin : ∀ g ∈ fs, isComplex g = false → f.name ≠ g.name := by
        intro g hg hgc hne
        exact (List.nodup_cons.mp hnodup').1
          (List.mem_map.mpr ⟨g, List.mem_filter.mpr ⟨hg, by simp [hgc]⟩, hne.symm⟩)
      rw [ih (sch0 ++ [(f.name, columnForField f)]) ?h0' hnodup2]
      · simp [List.cons_append, List.append_assoc]
      · intro g hg hgc
        simp only [List.any_append]
        rw [h0 g (List.mem_cons_of_mem f hg) hgc]
        simp only [List.any_cons, List.any_nil, Bool.false_or, Bool.or_false]
        simp only [beq_eq_false_iff_ne, ne_eq]
        exact hnotin g hg hgc

/-- Lookup in a schema built from distinct-name entries finds each
field by name. -/
theorem findMapEntry (fields : List TemplateField) (f : TemplateField)
    (hnodup : (fields.map (fun g => g.name)).Nodup) (hf : f ∈ fields) :
    (fields.map (fun g => (g.name, columnForField g))).find? (fun p => p.1 == f.name)
      = some (f.name, columnForField f) := by
  induction fields with
  | nil => simp at hf
  | cons g gs ih =>
    simp only [List.map_cons, List.find?_cons] at *
    rcases List.mem_cons.mp hf with heq | hmem
    · subst heq
      simp
    · have hne : g.name ≠ f.name := by
        intro he
        exact (List.nodup_cons.mp hnodup).1
          (he ▸ List.mem_map.mpr ⟨f, hmem, rfl⟩)
      have hb : (g.name == f.name) = false := by simpa using hne
      rw [hb]
      exact ih (List.nodup_cons.mp hnodup).2 hmem

theorem createTableSchemaChar (fields : List TemplateField) (tn : String)
    (hall : ∀ f ∈ fields, isComplex f = false)
    (hnodup : (fields.map (fun g => g.name)).Nodup)
    (hid : ∀ f ∈ fields, f.name ≠ "_id") :
    (createTableFromDocxFields fields tn).schema
      = ("_id", idColumn) :: fields.map (fun f => (f.name, columnForField f)) := by
  unfold createTableFromDocxFields
  have hfilter : fields.filter (fun f => !isComplex f) = fields :=
    List.filter_eq_self.mpr (fun f hf => by simp [hall f hf])
  have h0 : ∀ f ∈ fields, isComplex f = false →
      (objSet [] "_id" idColumn).any (fun p => p.1 == f.name) = false := by
    intro f hf _
    simp [objSet, idColumn]
    simpa using (hid f hf).symm
  rw [schemaFoldAppend fields (objSet [] "_id" idColumn) h0 (by rw [hfilter]; exact hnodup)]
  rw [hfilter]
  simp [objSet]

theorem objSetHit (sch : List (String × ColumnDef)) (k : String) (v : ColumnDef)
    (h : sch.any (fun p => p.1 == k) = true) :
    objSet sch k v = sch.map (fun p => if p.1 == k then (k, v) else p) := by
  simp [objSet, h]

theorem mapReplaceHead (k : String) (v0 v : ColumnDef) (rest : List (String × ColumnDef))
    (hrest : ∀ p ∈ rest, p.1 ≠ k) :
    ((k, v0) :: rest).map (fun p => if p.1 == k then (k, v) else p) = (k, v) :: rest := by
  simp only [List.map_cons]
  rw [if_pos (by simp)]
  congr 1
  have hc : ∀ p ∈ rest, (if p.1 == k then (k, v) else p) = p := by
    intro p hp
    rw [if_neg (by simpa using hrest p hp)]
  rw [List.map_congr_left hc, List.map_id']

theorem createTableIdOverwrite (pre post : List TemplateField) (tn : String)
    (fid : TemplateField)
    (hfidc : isComplex fid = false) (hname : fid.name = "_id")
    (hnodup : (((pre ++ fid :: post).filter (fun f => !isComplex f)).map
      (fun g => g.name)).Nodup) :
    (createTableFromDocxFields (pre ++ fid :: post) tn).schema
      = ("_id", columnForField fid)
          :: ((pre.filter (fun f => !isComplex f)).map (fun f => (f.name, columnForField f))
            ++ (post.filter (fun f => !isComplex f)).map (fun f => (f.name, columnForField f))) := by
  have hsplitfilter : (pre ++ fid :: post).filter (fun f => !isComplex f)
      = pre.filter (fun f => !isComplex f) ++ fid :: post.filter (fun f => !isComplex f) := by
    rw [List.filter_append, List.filter_cons]
    simp [hfidc]
  rw [hsplitfilter] at hnodup
  rw [List.map_append, List.map_cons, hname] at hnodup
  rw [List.nodup_append] at hnodup
  obtain ⟨hpreN, hconsN, hdisj⟩ := hnodup
  rw [List.nodup_cons] at hconsN
  obtain ⟨hidpost, hpostN⟩ := hconsN
  have hidpre : "_id" ∉ (pre.filter (fun f => !isComplex f)).map (fun g => g.name) := by
    intro hmem
    exact hdisj hmem (List.mem_cons_self _ _)
  unfold createTableFromDocxFields
  rw [List.foldl_append]
  have hpre0 : ∀ f ∈ pre, isComplex f = false →
      (objSet [] "_id" idColumn).any (fun p => p.1 == f.name) = false := by
    intro f hf hfc
    simp only [objSet, List.any_nil, Bool.false_eq_true, if_false, List.nil_append,
      List.any_cons, List.any_nil, Bool.or_false]
    rw [beq_eq_false_iff_ne]
    intro he
    exact hidpre (List.mem_map.mpr ⟨f, List.mem_filter.mpr ⟨hf, by simp [hfc]⟩, he.symm⟩)
  rw [schemaFoldAppend pre (objSet [] "_id" idColumn) hpre0 hpreN]
  simp only [List.foldl_cons]
  have hstep : schemaStep
      (objSet [] "_id" idColumn ++ (pre.filter (fun f => !isComplex f)).map
        (fun f => (f.name, columnForField f))) fid
      = ("_id", columnForField fid) :: (pre.filter (fun f => !isComplex f)).map
          (fun f => (f.name, columnForField f)) := by
    simp only [schemaStep, hfidc, Bool.false_eq_true, if_false, hname]
    rw [show (objSet [] "_id" idColumn ++ (pre.filter (fun f => !isComplex f)).map
        (fun f => (f.name, columnForField f)))
        = ("_id", idColumn) :: (pre.filter (fun f => !isComplex f)).map
            (fun f => (f.name, columnForField f)) by simp [objSet]]
    rw [objSetHit _ _ _ (by simp)]
    apply mapReplaceHead
    intro p hp
    obtain ⟨g, hg, hgp⟩ := List.mem_map.mp hp
    rw [← hgp]
    intro he
    exact hidpre (List.mem_map.mpr ⟨g, hg, he⟩)
  rw [hstep]
  have hpost0 : ∀ f ∈ post, isComplex f = false →
      (("_id", columnForField fid) :: (pre.filter (fun g => !isComplex g)).map
        (fun g => (g.name, columnForField g))).any (fun p => p.1 == f.name) = false := by
    intro f hf hfc
    simp only [List.any_cons, Bool.or_eq_false_iff]
    constructor
    · rw [beq_eq_false_iff_ne]
      intro he
      exact hidpost (he ▸ List.mem_map.mpr ⟨f, List.mem_filter.mpr ⟨hf, by simp [hfc]⟩, rfl⟩)
    · rw [← Bool.not_eq_true, List.any_eq_true]
      intro ⟨p, hp, hpe⟩
      obtain ⟨g, hg, hgp⟩ := List.mem_map.mp hp
      have : g.name = f.name := by
        rw [← hgp] at hpe
        simpa using hpe
      exact hdisj (List.mem_map.mpr ⟨g, hg, rfl⟩)
        (List.mem_cons_of_mem _
          (this ▸ List.mem_map.mpr ⟨f, List.mem_filter.mpr ⟨hf, by simp [hfc]⟩, rfl⟩))
  rw [schemaFoldAppend post _ hpost0 hpostN]
  simp

/-- Claim C1 is false on the code: for the end-to-end input the parser reports 4 placeholders (three simple-field matches, including the one inside the conditional block, plus the block itself), not 3 as claimed. -/
theorem C1_counterexample :
    (parseDocumenteroTemplate
      "\x7b\x7bfirstName\x7d\x7d \x7b\x7bemail\x7d\x7d \x7b\x7b#if hasDiscount\x7d\x7d\x7b\x7bdiscount\x7d\x7d\x7b\x7b/if\x7d\x7d").totalPlaceholders
      ≠ 3 := by decide

/-- Claim C1, amended: the end-to-end input yields 3 fields, but the top-level simple-field pass discovers `discount` inside the block first, so it stays `required = true` and unconditional; `totalPlaceholders = 4`; the validator finds all 3 fields compatible and skips none; and the synthesized schema has 4 columns (`_id`, `firstName`, `email`, `discount`). -/
theorem C1_end_to_end_amended :
    ((parseDocumenteroTemplate
      "\x7b\x7bfirstName\x7d\x7d \x7b\x7bemail\x7d\x7d \x7b\x7b#if hasDiscount\x7d\x7d\x7b\x7bdiscount\x7d\x7d\x7b\x7b/if\x7d\x7d").fields.map
        (fun f => (f.name, f.fieldType, f.required, f.isConditional, f.condition)))
      = [("firstName", "text", true, false, none), ("email", "email", true, false, none),
         ("discount", "number", true, false, none)]
    ∧ (parseDocumenteroTemplate
        "\x7b\x7bfirstName\x7d\x7d \x7b\x7bemail\x7d\x7d \x7b\x7b#if hasDiscount\x7d\x7d\x7b\x7bdiscount\x7d\x7d\x7b\x7b/if\x7d\x7d").totalPlaceholders = 4
    ∧ (parseDocumenteroTemplate
        "\x7b\x7bfirstName\x7d\x7d \x7b\x7bemail\x7d\x7d \x7b\x7b#if hasDiscount\x7d\x7d\x7b\x7bdiscount\x7d\x7d\x7b\x7b/if\x7d\x7d").conditionals
        = ["hasDiscount"]
    ∧ (validateDocxFieldsForPhase1
        (parseDocumenteroTemplate
          "\x7b\x7bfirstName\x7d\x7d \x7b\x7bemail\x7d\x7d \x7b\x7b#if hasDiscount\x7d\x7d\x7b\x7bdiscount\x7d\x7d\x7b\x7b/if\x7d\x7d").fields).compatibleFields.length = 3
    ∧ (validateDocxFieldsForPhase1
        (parseDocumenteroTemplate
          "\x7b\x7bfirstName\x7d\x7d \x7b\x7bemail\x7d\x7d \x7b\x7b#if hasDiscount\x7d\x7d\x7b\x7bdiscount\x7d\x7d\x7b\x7b/if\x7d\x7d").fields).skippedFields.length = 0
    ∧ ((createTableFromDocxFields
        (validateDocxFieldsForPhase1
          (parseDocumenteroTemplate
            "\x7b\x7bfirstName\x7d\x7d \x7b\x7bemail\x7d\x7d \x7b\x7b#if hasDiscount\x7d\x7d\x7b\x7bdiscount\x7d\x7d\x7b\x7b/if\x7d\x7d").fields).compatibleFields
        "Template Data").schema.map (fun p => p.1))
        = ["_id", "firstName", "email", "discount"] := by
  refine ⟨by decide, by decide, by decide, by decide, by decide, by decide⟩

/-- Claim C2 is false on the code: the one field returned for the loop input does not carry `isLoop = true` with `required = false` -- the simple-field pass sees `{{itemName}}` inside the block first and the loop pass's re-tagged copy is dropped by first-wins dedup. -/
theorem C2_counterexample :
    ((parseDocumenteroTemplate "\x7b\x7b#each items\x7d\x7d\x7b\x7bitemName\x7d\x7d\x7b\x7b/each\x7d\x7d").fields.map
      (fun f => (f.isLoop, f.required))) ≠ [(true, false)] := by decide

/-- Claim C2, amended: the loop input yields exactly one field `itemName` with `isLoop = false`, `required = true` and no `loopVariable` (the loop's existence is still recorded in `loops = ["items"]`, and the block contributes the second placeholder count). -/
theorem C2_loop_fields_amended :
    ((parseDocumenteroTemplate "\x7b\x7b#each items\x7d\x7d\x7b\x7bitemName\x7d\x7d\x7b\x7b/each\x7d\x7d").fields.map
      (fun f => (f.name, f.fieldType, f.required, f.isLoop, f.loopVariable)))
      = [("itemName", "text", true, false, none)]
    ∧ (parseDocumenteroTemplate "\x7b\x7b#each items\x7d\x7d\x7b\x7bitemName\x7d\x7d\x7b\x7b/each\x7d\x7d").loops = ["items"]
    ∧ (parseDocumenteroTemplate "\x7b\x7b#each items\x7d\x7d\x7b\x7bitemName\x7d\x7d\x7b\x7b/each\x7d\x7d").totalPlaceholders = 2 := by
  refine ⟨by decide, by decide, by decide⟩

/-- Claim C3: in `{{age}} {{#if c}}{{age}}{{/if}}` the `age` field keeps `required = true` and `isConditional = false` -- the top-level occurrence wins over the occurrence inside the conditional block. -/
theorem C3_first_wins :
    ((parseDocumenteroTemplate "\x7b\x7bage\x7d\x7d \x7b\x7b#if c\x7d\x7d\x7b\x7bage\x7d\x7d\x7b\x7b/if\x7d\x7d").fields.map
      (fun f => (f.name, f.required, f.isConditional)))
      = [("age", true, false)]
    ∧ (parseDocumenteroTemplate "\x7b\x7bage\x7d\x7d \x7b\x7b#if c\x7d\x7d\x7b\x7bage\x7d\x7d\x7b\x7b/if\x7d\x7d").conditionals = ["c"] := by
  refine ⟨by decide, by decide⟩

/-- Claim C4: for every input string no two fields of the parse result share a dedup key (`path` if present and nonempty, else `name`); and when one key is discovered twice the first-discovered occurrence is kept, shown on `{{n}} {{#each xs}}{{n}}{{/each}}` where the later loop-tagged duplicate is dropped. -/
theorem C4_dedup_invariant :
    (∀ s : String,
      ((parseDocumenteroTemplate s).fields).Pairwise (fun f g => jsKey f ≠ jsKey g))
    ∧ ((parseDocumenteroTemplate "\x7b\x7bn\x7d\x7d \x7b\x7b#each xs\x7d\x7d\x7b\x7bn\x7d\x7d\x7b\x7b/each\x7d\x7d").fields.map
        (fun f => (f.name, f.required, f.isLoop, f.loopVariable)))
        = [("n", true, false, none)] :=
  ⟨fun s => parseAuxPairwise (s.data.length + 1) s.data, by decide⟩

/-- Claim C5: `inferFieldType` applies its case-insensitive substring rules in the spec's fixed order with the first matching rule winning (it agrees with the ordered rule table `inferFieldTypeSpec` on every name), and in particular maps createdDate to date, isActive to boolean, id to number, and customerEmail to email. -/
theorem C5_type_inference :
    (∀ name : String, inferFieldType name = inferFieldTypeSpec name)
    ∧ inferFieldType "createdDate" = "date"
    ∧ inferFieldType "isActive" = "boolean"
    ∧ inferFieldType "id" = "number"
    ∧ inferFieldType "customerEmail" = "email" :=
  ⟨inferFieldType_eq_spec, by decide, by decide, by decide, by decide⟩

/-- Claim C6 is false on the code: `primaryDisplay` is computed by `fields.find(f => f.type === "text")` with no compatibility filter, so a loop-flagged text field -- which is not compatible -- is still chosen instead of the claimed `_id` fallback. -/
theorem C6_counterexample :
    (createTableFromDocxFields
      [{ name := "x", fieldType := "text", required := true, path := none,
         isNested := false, isConditional := false, isLoop := true,
         condition := none, loopVariable := some "items", description := none }]
      "T").primaryDisplay = "x"
    ∧ (createTableFromDocxFields
      [{ name := "x", fieldType := "text", required := true, path := none,
         isNested := false, isConditional := false, isLoop := true,
         condition := none, loopVariable := some "items", description := none }]
      "T").primaryDisplay ≠ "_id" := by
  refine ⟨by decide, by decide⟩

/-- Claim C6, amended: `primaryDisplay` is the name of the first field of type text in the full field list, compatible or not, falling back to `_id` when no text-typed field exists (or when the found field's name is the empty string, which is falsy in JavaScript). -/
theorem C6_primary_display_amended (fields : List TemplateField) (tn : String) :
    (fields.find? (fun f => f.fieldType == "text") = none →
      (createTableFromDocxFields fields tn).primaryDisplay = "_id")
    ∧ (∀ f, fields.find? (fun f => f.fieldType == "text") = some f → f.name ≠ "" →
      (createTableFromDocxFields fields tn).primaryDisplay = f.name) := by
  constructor
  · intro hfind
    simp [createTableFromDocxFields, hfind]
  · intro f hfind hname
    simp [createTableFromDocxFields, hfind, hname]

/-- Witness for the amended claim C6 at a one-field list. -/
theorem C6_witness :
    (createTableFromDocxFields
      [{ name := "a", fieldType := "text", required := true, path := none,
         isNested := false, isConditional := false, isLoop := false,
         condition := none, loopVariable := none, description := none }]
      "T").primaryDisplay = "a" :=
  (C6_primary_display_amended _ "T").2
    { name := "a", fieldType := "text", required := true, path := none,
      isNested := false, isConditional := false, isLoop := false,
      condition := none, loopVariable := none, description := none }
    (by decide) (by decide)

/-- Claim C7: `validateDocxFieldsForPhase1` (a total function -- it never throws) partitions its input: compatible plus skipped lengths equal the input length, a field is skipped exactly when a provenance flag is set or its type has no schema-column mapping, and each skipped field yields exactly one warning in which nested takes precedence over conditional over loop. -/
theorem C7_validator_partition (fields : List TemplateField) :
    (validateDocxFieldsForPhase1 fields).compatibleFields.length
        + (validateDocxFieldsForPhase1 fields).skippedFields.length = fields.length
    ∧ (validateDocxFieldsForPhase1 fields).skippedFields
        = fields.filter (fun f =>
            f.isNested || f.isConditional || f.isLoop ||
              (objGet DOCX_TO_BUDIBASE_TYPE_MAP f.fieldType).isNone)
    ∧ (validateDocxFieldsForPhase1 fields).compatibleFields
        = fields.filter (fun f =>
            !(f.isNested || f.isConditional || f.isLoop ||
              (objGet DOCX_TO_BUDIBASE_TYPE_MAP f.fieldType).isNone))
    ∧ (validateDocxFieldsForPhase1 fields).warnings
        = (validateDocxFieldsForPhase1 fields).skippedFields.map (fun f =>
            if f.isNested || f.isConditional || f.isLoop then
              "Skipped complex field: " ++ f.name ++ " (" ++
                (if f.isNested then "nested"
                 else if f.isConditional then "conditional"
                 else "loop") ++ ")"
            else
              "Skipped unsupported field type: " ++ f.name ++ " (" ++ f.fieldType ++ ")") := by
  obtain ⟨hc, hs, hw⟩ := validateChar fields
  have hpred : ∀ f : TemplateField, shouldSkipField f
      = (f.isNested || f.isConditional || f.isLoop ||
          (objGet DOCX_TO_BUDIBASE_TYPE_MAP f.fieldType).isNone) := by
    intro f
    simp [shouldSkipField, isComplex, Bool.or_assoc]
  refine ⟨?_, ?_, ?_, ?_⟩
  · rw [hc, hs]
    exact filterLenSplit fields
  · rw [hs]
    exact List.filter_congr (fun f _ => hpred f)
  · rw [hc]
    exact List.filter_congr (fun f _ => by rw [hpred f])
  · rw [hw, hs]
    apply List.map_congr_left
    intro f _
    simp only [skipWarning, isComplex, Bool.or_assoc]

/-- Claim C8 is false on the code: one compatible field literally named `_id` overwrites the auto-generated `_id` column, so the schema has 1 column, not the claimed N + 1 = 2. -/
theorem C8_counterexample :
    (createTableFromDocxFields
      [{ name := "_id", fieldType := "number", required := true, path := none,
         isNested := false, isConditional := false, isLoop := false,
         condition := none, loopVariable := none, description := none }]
      "T").schema.length = 1 := by decide

/-- Claim C8, amended: for compatible fields with pairwise-distinct names none of which is `_id`, the schema has exactly N + 1 columns -- the auto-generated, not-required `_id` string column plus one column per field whose presence constraint equals the field's `required` flag, with the email-format, URL-format and date-only extras for email, url and date fields. -/
theorem C8_schema_shape_amended (fields : List TemplateField) (tn : String)
    (hall : ∀ f ∈ fields, isComplex f = false)
    (hnodup : (fields.map (fun g => g.name)).Nodup)
    (hid : ∀ f ∈ fields, f.name ≠ "_id") :
    (createTableFromDocxFields fields tn).schema.length = fields.length + 1
    ∧ schemaLookup (createTableFromDocxFields fields tn).schema "_id" = some idColumn
    ∧ idColumn.autocolumn = true
    ∧ idColumn.colType = FieldTypeSTRING
    ∧ idColumn.constraints.presence = false
    ∧ (∀ f ∈ fields, schemaLookup (createTableFromDocxFields fields tn).schema f.name
        = some (columnForField f))
    ∧ (∀ f : TemplateField,
        (columnForField f).constraints.presence = f.required
        ∧ (columnForField f).constraints.email = (f.fieldType == "email")
        ∧ (columnForField f).constraints.url = (f.fieldType == "url")
        ∧ (columnForField f).dateOnly = (f.fieldType == "date")) := by
  have hchar := createTableSchemaChar fields tn hall hnodup hid
  refine ⟨?_, ?_, rfl, rfl, rfl, ?_, fun f => ⟨rfl, rfl, rfl, rfl⟩⟩
  · rw [hchar]
    simp
  · rw [hchar]
    simp [schemaLookup]
  · intro f hf
    rw [hchar]
    unfold schemaLookup
    rw [List.find?_cons]
    have hb : (("_id" : String) == f.name) = false := by
      simpa using (hid f hf).symm
    rw [hb]
    rw [findMapEntry fields f hnodup hf]
    rfl

/-- Witness for the amended claim C8 at a two-field list. -/
theorem C8_witness :
    (createTableFromDocxFields
      [{ name := "a", fieldType := "text", required := true, path := none,
         isNested := false, isConditional := false, isLoop := false,
         condition := none, loopVariable := none, description := none },
       { name := "b", fieldType := "email", required := false, path := none,
         isNested := false, isConditional := false, isLoop := false,
         condition := none, loopVariable := none, description := none }]
      "T").schema.length = 3 :=
  (C8_schema_shape_amended _ "T" (by decide) (by decide) (by decide)).1

/-- Claim C9: `parseDocumenteroTemplate` terminates on every finite input -- its recursion depth is bounded by the input length because every block body is a strictly shorter substring, so any fuel above the text length yields the same result as the canonical `length + 1`. -/
theorem C9_termination (s : String) (fuel : Nat) (h : s.data.length < fuel) :
    parseAux fuel s.data = parseDocumenteroTemplate s :=
  parseAuxFuelIrrelevant s.data fuel (s.data.length + 1) h (Nat.lt_succ_self _)

/-- Witness for claim C9 at a concrete input and fuel. -/
theorem C9_witness :
    parseAux 100 ("\x7b\x7ba\x7d\x7d \x7b\x7b#if c\x7d\x7d\x7b\x7bb\x7d\x7d\x7b\x7b/if\x7d\x7d".data)
      = parseDocumenteroTemplate "\x7b\x7ba\x7d\x7d \x7b\x7b#if c\x7d\x7d\x7b\x7bb\x7d\x7d\x7b\x7b/if\x7d\x7d" :=
  C9_termination "\x7b\x7ba\x7d\x7d \x7b\x7b#if c\x7d\x7d\x7b\x7bb\x7d\x7d\x7b\x7b/if\x7d\x7d" 100 (by decide)

/-- Claim C10: when the field list contains a compatible field literally named `_id` (and compatible names are pairwise distinct), that field's column overwrites the auto-generated `_id` column: the schema has N columns instead of N + 1, the `_id` entry carries the field's column definition, and it is no longer marked as an autocolumn. -/
theorem C10_id_overwrite (pre post : List TemplateField) (tn : String)
    (fid : TemplateField)
    (hfidc : isComplex fid = false) (hname : fid.name = "_id")
    (hnodup : (((pre ++ fid :: post).filter (fun f => !isComplex f)).map
      (fun g => g.name)).Nodup) :
    (createTableFromDocxFields (pre ++ fid :: post) tn).schema.length
        = ((pre ++ fid :: post).filter (fun f => !isComplex f)).length
    ∧ schemaLookup (createTableFromDocxFields (pre ++ fid :: post) tn).schema "_id"
        = some (columnForField fid)
    ∧ (columnForField fid).autocolumn = false := by
  have hchar := createTableIdOverwrite pre post tn fid hfidc hname hnodup
  refine ⟨?_, ?_, rfl⟩
  · rw [hchar]
    rw [List.filter_append, List.filter_cons]
    simp [hfidc]
    omega
  · rw [hchar]
    simp [schemaLookup]

/-- Witness for claim C10 at a two-field list containing a compatible `_id` field. -/
theorem C10_witness :
    schemaLookup
      (createTableFromDocxFields
        ([{ name := "a", fieldType := "text", required := true, path := none,
            isNested := false, isConditional := false, isLoop := false,
            condition := none, loopVariable := none, description := none }]
          ++ { name := "_id", fieldType := "number", required := true, path := none,
               isNested := false, isConditional := false, isLoop := false,
               condition := none, loopVariable := none, description := none } :: [])
        "T").schema "_id"
      = some (columnForField
          { name := "_id", fieldType := "number", required := true, path := none,
            isNested := false, isConditional := false, isLoop := false,
            condition := none, loopVariable := none, description := none }) :=
  (C10_id_overwrite _ _ "T" _ (by decide) (by decide) (by decide)).2.1
